import Mathlib

set_option maxRecDepth 8000

/-!
Verification of the wasted-lines-detector GitHub Action.

This file embeds the analysis-and-diff-position core of the repository:

* `SrcIndex.getDiffPosition` — the diff-position mapper of `src/index.js`
  (identical in `src/unnamed/part_002`), which translates a source line
  number into a review-comment position inside a unified-diff patch;
* `Detector.analyzeCode` — the regex rule set of
  `src/wasted-lines-detector/index.js`;
* `Analyzer.analyzeCode` / `Analyzer.analyzeNonJsCode` — the AST-based
  JavaScript analyzer and the per-line non-JavaScript heuristics of
  `src/unnamed/part_001`.

Strings are modelled as `List Char` (`String.data`); the JavaScript regular
expressions used by the source are embedded as backtracking-complete
matchers over `List Char`, written combinator by combinator after the
regex they realize.  JavaScript `null`/`undefined` results are `Option`.
-/

namespace WastedLines

/-- JS `String.prototype.startsWith`: does `s` begin with `p`? -/
def strStartsWith : List Char → List Char → Bool
  | _, [] => true
  | [], _ :: _ => false
  | c :: cs, p :: ps => c = p && strStartsWith cs ps

/-- JS `String.prototype.endsWith`: does `s` end with `p`? -/
def strEndsWith (s p : List Char) : Bool :=
  strStartsWith s.reverse p.reverse

/-- JS `String.prototype.split('\n')`: split at newline characters, keeping
empty segments (so `""` splits to `[""]` and a trailing newline produces a
trailing empty segment). -/
def splitOnNl : List Char → List (List Char)
  | [] => [[]]
  | c :: cs =>
    if c = '\n' then [] :: splitOnNl cs
    else
      match splitOnNl cs with
      | [] => [[c]]
      | l :: ls => (c :: l) :: ls

/-- Decimal digit, the `\d` class of the hunk-header pattern. -/
def isDigitCh (c : Char) : Bool := '0' ≤ c && c ≤ '9'

/-- Maximal run of decimal digits at the front of the list (the greedy
`\d+`; maximal munch is equivalent to backtracking here because every
occurrence of `\d+` in the embedded patterns is followed by a non-digit). -/
def takeDigits : List Char → List Char × List Char
  | [] => ([], [])
  | c :: cs =>
    if isDigitCh c then
      match takeDigits cs with
      | (ds, rest) => (c :: ds, rest)
    else ([], c :: cs)

/-- Value of a digit string, as JS `parseInt(s, 10)` computes it on an
all-digit string. -/
def digitsVal : List Char → Nat → Nat
  | [], acc => acc
  | c :: cs, acc => digitsVal cs (10 * acc + (c.toNat - 48))

/-- Parse one or more digits at the front (`(\d+)` with its value). -/
def parseNat1 (s : List Char) : Option (Nat × List Char) :=
  match takeDigits s with
  | ([], _) => none
  | (ds, rest) => some (digitsVal ds 0, rest)

/-- Drop an exact literal from the front of the list, or fail. -/
def dropLit : List Char → List Char → Option (List Char)
  | [], s => some s
  | _ :: _, [] => none
  | p :: ps, c :: cs => if c = p then dropLit ps cs else none

/-- Match the hunk-header pattern `@@ -\d+,\d+ \+(\d+),(\d+) @@` at the
start of the list and return the first captured group (`newStart`), the
value `parseInt(match[1], 10)` that `getDiffPosition` assigns to its
`currentLine` counter. -/
def matchHunkAt (s : List Char) : Option Nat := do
  let s ← dropLit "@@ -".data s
  let (_, s) ← parseNat1 s
  let s ← dropLit ",".data s
  let (_, s) ← parseNat1 s
  let s ← dropLit " +".data s
  let (n, s) ← parseNat1 s
  let s ← dropLit ",".data s
  let (_, s) ← parseNat1 s
  let _ ← dropLit " @@".data s
  some n

/-- JS `line.match(/@@ -\d+,\d+ \+(\d+),(\d+) @@/)`: the regex is not
anchored, so the leftmost position where the pattern matches wins. -/
def searchHunk : List Char → Option Nat
  | [] => none
  | c :: cs =>
    match matchHunkAt (c :: cs) with
    | some n => some n
    | none => searchHunk cs

/-- `line.startsWith('@@')` of the `getDiffPosition` loop. -/
def isHeaderLine (l : List Char) : Bool := strStartsWith l "@@".data

/-- `line.startsWith('-')` of the `getDiffPosition` loop. -/
def isRemovedLine (l : List Char) : Bool := strStartsWith l "-".data

namespace SrcIndex

/-- Loop body of `getDiffPosition` (src/index.js lines 37-50): for each
patch line, a line starting with `@@` re-parses `currentLine` from the
hunk header (when the header pattern matches) and counts nothing; a line
starting with `-` is skipped entirely; every other line increments the
`diffPosition` counter, returns it if `currentLine` equals the requested
line number, and otherwise advances `currentLine`. -/
def diffLoop : List (List Char) → Int → Nat → Int → Option Nat
  | [], _, _, _ => none
  | l :: ls, lineNumber, diffPosition, currentLine =>
    if isHeaderLine l then
      match searchHunk l with
      | some n => diffLoop ls lineNumber diffPosition (Int.ofNat n)
      | none => diffLoop ls lineNumber diffPosition currentLine
    else if isRemovedLine l then
      diffLoop ls lineNumber diffPosition currentLine
    else if currentLine = lineNumber then some (diffPosition + 1)
    else diffLoop ls lineNumber (diffPosition + 1) (currentLine + 1)

/-- `getDiffPosition(patch, lineNumber)` from src/index.js lines 31-52.
`none` for the patch argument models JS `undefined`/`null` (a file with no
patch); the JS guard `if (!patch) return null` is also taken by the empty
string.  The result `none` models the JS `null` sentinel. -/
def getDiffPosition (patch : Option String) (lineNumber : Int) : Option Nat :=
  match patch with
  | none => none
  | some p =>
    if p.data = [] then none
    else diffLoop (splitOnNl p.data) lineNumber 0 0

/-- Modelled from the spec: GitHub's documented review-comment "position"
semantics, which `getDiffPosition` is required to reproduce — every line
of the patch body after a hunk header increments the diff-position
counter, removed lines included, while only non-removed lines advance the
new-file line counter.  This differs from `diffLoop` only in the removed
branch, which here increments `diffPosition`. -/
def diffLoopSpec : List (List Char) → Int → Nat → Int → Option Nat
  | [], _, _, _ => none
  | l :: ls, lineNumber, diffPosition, currentLine =>
    if isHeaderLine l then
      match searchHunk l with
      | some n => diffLoopSpec ls lineNumber diffPosition (Int.ofNat n)
      | none => diffLoopSpec ls lineNumber diffPosition currentLine
    else if isRemovedLine l then
      diffLoopSpec ls lineNumber (diffPosition + 1) currentLine
    else if currentLine = lineNumber then some (diffPosition + 1)
    else diffLoopSpec ls lineNumber (diffPosition + 1) (currentLine + 1)

/-- Modelled from the spec: `getDiffPosition` under GitHub's documented
position convention (see `diffLoopSpec`). -/
def getDiffPositionSpec (patch : Option String) (lineNumber : Int) : Option Nat :=
  match patch with
  | none => none
  | some p =>
    if p.data = [] then none
    else diffLoopSpec (splitOnNl p.data) lineNumber 0 0

/-- Number of non-removed lines in a hunk body — the lines that advance
both counters of `diffLoop`. -/
def countNonRemoved : List (List Char) → Nat
  | [] => 0
  | l :: ls => (if isRemovedLine l then 0 else 1) + countNonRemoved ls

/-- Lines of a patch that are not hunk headers. -/
def countNonHeaderLines : List (List Char) → Nat
  | [] => 0
  | l :: ls => (if isHeaderLine l then 0 else 1) + countNonHeaderLines ls

/-- Lines on which `diffLoop` increments its position counter: neither
hunk headers nor removed lines. -/
def countCountingLines : List (List Char) → Nat
  | [] => 0
  | l :: ls =>
    (if isHeaderLine l then 0 else if isRemovedLine l then 0 else 1) + countCountingLines ls

/-- New-file line numbers of the added/context lines of a hunk body whose
first non-removed line sits at new-file line `cur`. -/
def coveredFrom : List (List Char) → Int → List Int
  | [], _ => []
  | l :: ls, cur =>
    if isRemovedLine l then coveredFrom ls cur
    else cur :: coveredFrom ls (cur + 1)

/-- A hunk of a structured patch: its header line and its body lines. -/
abbrev HunkT := List Char × List (List Char)

/-- Well-formed hunk: the header starts with `@@` and carries a parsable
two-count header, and no body line is itself a header. -/
def HunkWF (hb : HunkT) : Prop :=
  isHeaderLine hb.1 = true ∧ (searchHunk hb.1).isSome = true ∧
    ∀ l ∈ hb.2, isHeaderLine l = false

instance (hb : HunkT) : Decidable (HunkWF hb) := by
  unfold HunkWF; infer_instance

/-- New-file lines covered by the added/context lines of one hunk. -/
def hunkCovered (hb : HunkT) : List Int :=
  match searchHunk hb.1 with
  | some s => coveredFrom hb.2 (Int.ofNat s)
  | none => []

/-- The line sequence of a structured patch. -/
def flattenHunks : List HunkT → List (List Char)
  | [] => []
  | hb :: hs => hb.1 :: (hb.2 ++ flattenHunks hs)

/-- New-file lines covered by the added/context lines of a whole patch. -/
def patchCovered : List HunkT → List Int
  | [] => []
  | hb :: hs => hunkCovered hb ++ patchCovered hs

/-- Failing input for the position convention: a hunk whose removed line
precedes the context line for new-file line 1. -/
def c1Patch : String := "@@ -1,2 +1,1 @@\n-removed\n context"

/-- The adversarial patch whose second hunk header rewinds the line
counter below the first hunk's start. -/
def c3Patch : String := "@@ -10,1 +10,1 @@\n a\n@@ -1,1 +1,1 @@\n b"

/-- A single-hunk patch used as concrete input for the unresolvable cases. -/
def c3WFPatch : String := "@@ -1,1 +1,1 @@\n ctx"

/-- The structured form of `c3WFPatch`. -/
def c3WFHunks : List HunkT := [("@@ -1,1 +1,1 @@".data, [" ctx".data])]

/-- A single-hunk patch with a deletion between two covered lines, used as
concrete input for the position-monotonicity property. -/
def c4Patch : String := "@@ -1,3 +1,3 @@\n a\n-b\n+c\n d"

/-- Header line of `c4Patch`. -/
def c4Hd : List Char := "@@ -1,3 +1,3 @@".data

/-- Body lines of `c4Patch`. -/
def c4Body : List (List Char) := [" a".data, "-b".data, "+c".data, " d".data]

end SrcIndex

/-- ASCII core of the JS `\s` whitespace class (the characters relevant to
the embedded sources; exotic Unicode space characters are omitted). -/
def isSpaceCh (c : Char) : Bool :=
  c = ' ' || c = '\t' || c = '\n' || c = '\r' || c = '\x0b' || c = '\x0c'

/-- JS `\w` word-character class. -/
def isWordCh (c : Char) : Bool :=
  ('a' ≤ c && c ≤ 'z') || ('A' ≤ c && c ≤ 'Z') || ('0' ≤ c && c ≤ '9') || c = '_'

/-- Any character but a newline: the `.` regex class. -/
def isNotNl (c : Char) : Bool := !(c = '\n')

/-- The open-brace character, by code point. -/
def openBrace : Char := '\x7b'

/-- The close-brace character, by code point. -/
def closeBrace : Char := '\x7d'

/-- The `[^{}]` regex class (written by code point). -/
def isNonBrace (c : Char) : Bool := !(c = openBrace) && !(c = closeBrace)

/-- The `[^)]` regex class. -/
def isNotCloseParen (c : Char) : Bool := !(c = ')')

/-- The `[^}]` regex class. -/
def isNotCloseBrace (c : Char) : Bool := !(c = closeBrace)

/-- Backtracking-complete `p*` followed by the continuation `k`: true
exactly when some split into a `p`-run and a `k`-match exists. -/
def matchStar (p : Char → Bool) (k : List Char → Bool) : List Char → Bool
  | [] => k []
  | c :: cs => k (c :: cs) || (p c && matchStar p k cs)

/-- Backtracking-complete `p+` followed by the continuation `k`. -/
def matchPlus (p : Char → Bool) (k : List Char → Bool) : List Char → Bool
  | [] => false
  | c :: cs => p c && matchStar p k cs

/-- Match one fixed character, then continue. -/
def expectCh (c : Char) (k : List Char → Bool) : List Char → Bool
  | [] => false
  | x :: xs => x = c && k xs

/-- Match a literal, then continue. -/
def matchLit (lit : List Char) (k : List Char → Bool) (s : List Char) : Bool :=
  match dropLit lit s with
  | some r => k r
  | none => false

/-- Unanchored regex test: does the pattern match at some position? -/
def anySuffix (k : List Char → Bool) : List Char → Bool
  | [] => k []
  | c :: cs => k (c :: cs) || anySuffix k cs

/-- Positions strictly after the start whose preceding character is a
non-word character — the later `\b` positions for a pattern opening with a
word character. -/
def searchBoundaryAux (k : List Char → Bool) : List Char → Bool
  | [] => false
  | c :: cs => (!isWordCh c && k cs) || searchBoundaryAux k cs

/-- Unanchored test of a pattern opening with `\b` followed by a word
character: position 0 is always a boundary there, later positions require
a non-word character before them. -/
def searchBoundary (k : List Char → Bool) (s : List Char) : Bool :=
  k s || searchBoundaryAux k s

/-- Maximal run of word characters (the captured `(\w+)`; maximal munch is
forced because the capture is followed by `\s*=`, which cannot consume a
word character). -/
def takeWord : List Char → List Char × List Char
  | [] => ([], [])
  | c :: cs =>
    if isWordCh c then
      match takeWord cs with
      | (ws, rest) => (c :: ws, rest)
    else ([], c :: cs)

namespace Detector

/-- Matcher for `if\s*\(.*\)\s*\{[^{}]*\}\s*else\s*\{[^{}]*\}` — the body
of the unnecessary-if-else pattern of src/wasted-lines-detector/index.js
line 65 — anchored at the current position. -/
def matchIfElseAt : List Char → Bool :=
  matchLit "if".data <|
  matchStar isSpaceCh <|
  expectCh '(' <|
  matchStar isNotNl <|
  expectCh ')' <|
  matchStar isSpaceCh <|
  expectCh openBrace <|
  matchStar isNonBrace <|
  expectCh closeBrace <|
  matchStar isSpaceCh <|
  matchLit "else".data <|
  matchStar isSpaceCh <|
  expectCh openBrace <|
  matchStar isNonBrace <|
  expectCh closeBrace (fun _ => true)

/-- `ifElsePattern.test(content)`: the pattern opens with `\b` and `if`. -/
def testIfElse : List Char → Bool := searchBoundary matchIfElseAt

/-- Matcher for one keyword alternative of the duplicate-assignment
pattern `(let|const|var)\s+(\w+)\s*=.*;\s*\1\s+\2\s*=.*` (line 71),
anchored at the current position; `kw` is the group-1 capture replayed by
the `\1` backreference and the word taken by `takeWord` the group-2
capture replayed by `\2`. -/
def matchDupVarKw (kw : List Char) : List Char → Bool :=
  matchLit kw <|
  matchPlus isSpaceCh <| fun r =>
    match takeWord r with
    | ([], _) => false
    | (w, r1) =>
      (matchStar isSpaceCh <|
       expectCh '=' <|
       matchStar isNotNl <|
       expectCh ';' <|
       matchStar isSpaceCh <|
       matchLit kw <|
       matchPlus isSpaceCh <|
       matchLit w <|
       matchStar isSpaceCh <|
       expectCh '=' (fun _ => true)) r1

/-- The three alternatives of the duplicate-assignment pattern. -/
def matchDupVarAt (s : List Char) : Bool :=
  matchDupVarKw "let".data s || matchDupVarKw "const".data s || matchDupVarKw "var".data s

/-- `duplicateVarPattern.test(content)`. -/
def testDupVar : List Char → Bool := searchBoundary matchDupVarAt

/-- `([^}]*\n){n}`: `n` repetitions of a non-close-brace run followed by a
newline.  The `{10,}` quantifier of the long-loop pattern is satisfiable
exactly when 10 repetitions are, the rest of the pattern being empty. -/
def matchLoopBlocks : Nat → List Char → Bool
  | 0, _ => true
  | n + 1, s => matchStar isNotCloseBrace (expectCh '\n' (fun r => matchLoopBlocks n r)) s

/-- Matcher for one keyword alternative of the long-loop pattern
`(for|while)\s*\([^)]*\)\s*\{([^}]*\n){10,}` (line 77). -/
def matchLongLoopKw (kw : List Char) : List Char → Bool :=
  matchLit kw <|
  matchStar isSpaceCh <|
  expectCh '(' <|
  matchStar isNotCloseParen <|
  expectCh ')' <|
  matchStar isSpaceCh <|
  expectCh openBrace (matchLoopBlocks 10)

/-- The two alternatives of the long-loop pattern. -/
def matchLongLoopAt (s : List Char) : Bool :=
  matchLongLoopKw "for".data s || matchLongLoopKw "while".data s

/-- `longLoopPattern.test(content)`. -/
def testLongLoop : List Char → Bool := searchBoundary matchLongLoopAt

/-- Message pushed by the unnecessary-if-else rule. -/
def ifElseMsg : String :=
  "🔍 Found an unnecessary **if-else block**. Consider using a **ternary operator**."

/-- Message pushed by the duplicate-assignment rule. -/
def dupVarMsg : String :=
  "🔍 Found **duplicate variable assignments**. Remove redundant lines."

/-- Message pushed by the long-loop rule. -/
def longLoopMsg : String :=
  "🔍 Found a **long loop** (> 10 lines). Consider refactoring into **smaller functions**."

/-- `analyzeCode(content, filename)` from src/wasted-lines-detector/index.js
lines 61-83: three independent regex tests over the whole content, each
appending its message at most once; the filename is unused by the source
too. -/
def analyzeCode (content : String) (_filename : String) : List String :=
  (if testIfElse content.data then [ifElseMsg] else []) ++
  (if testDupVar content.data then [dupVarMsg] else []) ++
  (if testLongLoop content.data then [longLoopMsg] else [])

/-- Count of word-boundary positions strictly after the start where the
if-else pattern matches. -/
def ifElseOccurrencesAux : List Char → Nat
  | [] => 0
  | c :: cs => (if !isWordCh c && matchIfElseAt cs then 1 else 0) + ifElseOccurrencesAux cs

/-- Modelled from the spec: the number of occurrences of an unnecessary
if/else block (single-statement, brace-free bodies on both branches) in a
text — the number of word-boundary positions at which the detector's own
if-else pattern matches. -/
def ifElseOccurrences (s : List Char) : Nat :=
  (if matchIfElseAt s then 1 else 0) + ifElseOccurrencesAux s

/-- Two disjoint single-statement if/else blocks. -/
def c6Content : String :=
  "if (a) \x7b x(); \x7d else \x7b y(); \x7d\nif (b) \x7b u(); \x7d else \x7b v(); \x7d"

end Detector

namespace Analyzer

/-- A finding of src/unnamed/part_001: the pushed `{ message, line }`
record. -/
structure Suggestion where
  message : String
  line : Nat
deriving DecidableEq

/-- Matcher for `print\(.*\)` anchored at the current position. -/
def matchPrintAt : List Char → Bool :=
  matchLit "print(".data <| matchStar isNotNl <| expectCh ')' (fun _ => true)

/-- `/print\(.*\)/g.test(line)` (unanchored). -/
def testPrint : List Char → Bool := anySuffix matchPrintAt

/-- Matcher for `if\s+.*\s+==\s+True:` anchored at the current position. -/
def matchPyBoolAt : List Char → Bool :=
  matchLit "if".data <|
  matchPlus isSpaceCh <|
  matchStar isNotNl <|
  matchPlus isSpaceCh <|
  matchLit "==".data <|
  matchPlus isSpaceCh <|
  matchLit "True:".data (fun _ => true)

/-- `/if\s+.*\s+==\s+True:/g.test(line)`. -/
def testPyBool : List Char → Bool := anySuffix matchPyBoolAt

/-- Matcher for `w\s+.*$` anchored at the current position: the literal
word, at least one whitespace character, then anything up to the end of
the line (`$` without the `m` flag matches only at the end of the input,
and split lines contain no newline). -/
def matchWordSpaceAt (w : List Char) : List Char → Bool :=
  matchLit w <| matchPlus isSpaceCh <| matchStar isNotNl (fun r => r.isEmpty)

/-- `/echo\s+.*$/g.test(line)`. -/
def testEcho : List Char → Bool := anySuffix (matchWordSpaceAt "echo".data)

/-- `/puts\s+.*$/g.test(line)`. -/
def testPuts : List Char → Bool := anySuffix (matchWordSpaceAt "puts".data)

/-- `/println\s+.*$/g.test(line)`. -/
def testPrintln : List Char → Bool := anySuffix (matchWordSpaceAt "println".data)

/-- Message of the Python print rule. -/
def pyPrintMsg : String := "🔍 Too many print statements detected in Python file."

/-- Message of the Python boolean-comparison rule. -/
def pyBoolMsg : String := "🔍 Boolean comparison can be simplified: `if condition`."

/-- Message of the shell echo rule. -/
def shEchoMsg : String := "🔍 Too many echo statements detected in Shell script."

/-- Message of the Ruby puts rule. -/
def rbPutsMsg : String := "🔍 Too many puts statements detected in Ruby script."

/-- Message of the Groovy println rule. -/
def groovyPrintlnMsg : String := "🔍 Too many println statements detected in Groovy script."

/-- One line's findings in `analyzeNonJsCode`, dispatched on the filename
extension exactly as the source's if/else-if chain does. -/
def nonJsLineChecks (filename : String) (l : List Char) (n : Nat) : List Suggestion :=
  if strEndsWith filename.data ".py".data then
    (if testPrint l then [⟨pyPrintMsg, n⟩] else []) ++
    (if testPyBool l then [⟨pyBoolMsg, n⟩] else [])
  else if strEndsWith filename.data ".sh".data then
    (if testEcho l then [⟨shEchoMsg, n⟩] else [])
  else if strEndsWith filename.data ".rb".data then
    (if testPuts l then [⟨rbPutsMsg, n⟩] else [])
  else if strEndsWith filename.data ".groovy".data then
    (if testPrintln l then [⟨groovyPrintlnMsg, n⟩] else [])
  else []

/-- `lines.forEach((line, index) => ...)` with 1-based line numbers. -/
def forEachLine (filename : String) : List (List Char) → Nat → List Suggestion
  | [], _ => []
  | l :: ls, n => nonJsLineChecks filename l n ++ forEachLine filename ls (n + 1)

/-- `analyzeNonJsCode(content, filename, suggestions)` from
src/unnamed/part_001 lines 190-215, with the mutated suggestions array
returned as the result. -/
def analyzeNonJsCode (content : String) (filename : String) : List Suggestion :=
  forEachLine filename (splitOnNl content.data) 1

/-- Babel AST nodes, restricted to the shapes the four visitors of
src/unnamed/part_001 consult: node type, start line, the attributes the
checks read, and the child lists the traversal descends into.
`referenced` on a declarator embeds Babel's scope analysis
(`path.scope.bindings[name].referenced`), computed by the external
parser; subtrees that no visitor can fire on (block statement wrappers,
loop tests and updates) are elided. -/
inductive Node where
  | ifStmt (test : Node) (body : List Node) (line : Nat)
  | forStmt (init : List Node) (body : List Node) (line : Nat)
  | varDecl (declarations : List Node) (line : Nat)
  | varDeclarator (name : String) (referenced : Bool) (initChildren : List Node) (line : Nat)
  | callExpr (callee : Node) (args : List Node) (line : Nat)
  | memberExpr (obj : Node) (propName : Option String) (line : Nat)
  | binaryExpr (op : String) (left : Node) (right : Node) (line : Nat)
  | boolLit (value : Bool) (line : Nat)
  | ident (name : String) (line : Nat)

/-- `.name` of a node: identifiers have one, every other node yields the
JS `undefined`. -/
def nodeName : Node → Option String
  | .ident nm _ => some nm
  | _ => none

/-- Message of the simplifiable-boolean-comparison finding with the
compared name interpolated (JS renders a missing name as `undefined`). -/
def simplifiableMsg (x : Option String) : String :=
  "🔍 Boolean comparison can be simplified: `if (" ++ x.getD "undefined" ++ ")`"

/-- Message of the redundant boolean literal finding. -/
def redundantBoolMsg : String := "🔍 Redundant boolean literal in `if` condition"

/-- Message of the counting-loop finding. -/
def forLoopMsg : String :=
  "🔍 Consider replacing basic `for` loop with `Array.prototype.forEach()` or `Array.prototype.map()` for improved readability."

/-- Message of the console-log finding. -/
def consoleLogMsg : String := "🔍 Too many console logs detected. Consider removing debug logs."

/-- Message of the unused-variable finding with the binding name
interpolated. -/
def unusedMsg (name : String) : String :=
  "🔍 Unused variable detected: `" ++ name ++ "`"

/-- `checkIfStatement` (src/unnamed/part_001 lines 148-160): a
strict-equality binary test yields the simplifiable-comparison finding
with the left operand's name; otherwise a boolean-literal test yields the
redundant-literal finding. -/
def checkIfStatement : Node → List Suggestion
  | .ifStmt test _ line =>
    match test with
    | .binaryExpr op left _ _ =>
      if op = "===" then [⟨simplifiableMsg (nodeName left), line⟩] else []
    | .boolLit v _ =>
      if v = true ∨ v = false then [⟨redundantBoolMsg, line⟩] else []
    | _ => []
  | _ => []

/-- `checkForStatement` (lines 162-169): fires when the initializer is a
declaration whose first declarator is literally named `i`. -/
def checkForStatement : Node → List Suggestion
  | .forStmt init _ line =>
    match init with
    | .varDecl (.varDeclarator nm _ _ _ :: _) _ :: _ =>
      if nm = "i" then [⟨forLoopMsg, line⟩] else []
    | _ => []
  | _ => []

/-- `checkVariableDeclarator` (lines 171-179): fires when the binding has
no references in its scope. -/
def checkVariableDeclarator : Node → List Suggestion
  | .varDeclarator name referenced _ line =>
    if !referenced then [⟨unusedMsg name, line⟩] else []
  | _ => []

/-- `checkCallExpression` (lines 181-188): fires on member calls whose
accessed property is named `log`. -/
def checkCallExpression : Node → List Suggestion
  | .callExpr callee _ line =>
    match callee with
    | .memberExpr _ propName _ =>
      if propName = some "log" then [⟨consoleLogMsg, line⟩] else []
    | _ => []
  | _ => []

/-- The visitor table of `analyzeCode`: on each visited node the check for
its node type runs (the other checks return nothing on it). -/
def nodeChecks (n : Node) : List Suggestion :=
  checkIfStatement n ++ checkForStatement n ++ checkVariableDeclarator n ++ checkCallExpression n

mutual

/-- Pre-order, document-order traversal, as Babel's `traverse` visits. -/
def visitNode : Node → List Suggestion
  | n@(.ifStmt test body _) => nodeChecks n ++ visitNode test ++ visitNodes body
  | n@(.forStmt init body _) => nodeChecks n ++ visitNodes init ++ visitNodes body
  | n@(.varDecl ds _) => nodeChecks n ++ visitNodes ds
  | n@(.varDeclarator _ _ ie _) => nodeChecks n ++ visitNodes ie
  | n@(.callExpr callee args _) => nodeChecks n ++ visitNode callee ++ visitNodes args
  | n@(.memberExpr obj _ _) => nodeChecks n ++ visitNode obj
  | n@(.binaryExpr _ l r _) => nodeChecks n ++ visitNode l ++ visitNode r
  | n@(.boolLit _ _) => nodeChecks n
  | n@(.ident _ _) => nodeChecks n

/-- Traversal of a node list in order. -/
def visitNodes : List Node → List Suggestion
  | [] => []
  | n :: ns => visitNode n ++ visitNodes ns

end

/-- `analyzeCode(content, filename)` from src/unnamed/part_001 lines
118-146.  The Babel parser is an external dependency and enters as the
`parseJs` argument; `Except.error` stands for a thrown parse error, which
the source's catch block swallows, returning the suggestions accumulated
so far — none, since parsing precedes every push. -/
def analyzeCode (content : String) (filename : String)
    (parseJs : String → Except String (List Node)) : List Suggestion :=
  if strEndsWith filename.data ".js".data then
    match parseJs content with
    | .ok ast => visitNodes ast
    | .error _ => []
  else
    analyzeNonJsCode content filename

mutual

/-- Every declarator in the tree is referenced — the zero-unused-bindings
hypothesis. -/
def allRefNode : Node → Bool
  | .ifStmt test body _ => allRefNode test && allRefNodes body
  | .forStmt init body _ => allRefNodes init && allRefNodes body
  | .varDecl ds _ => allRefNodes ds
  | .varDeclarator _ r ie _ => r && allRefNodes ie
  | .callExpr callee args _ => allRefNode callee && allRefNodes args
  | .memberExpr obj _ _ => allRefNode obj
  | .binaryExpr _ l r _ => allRefNode l && allRefNode r
  | .boolLit _ _ => true
  | .ident _ _ => true

/-- `allRefNode` over a node list. -/
def allRefNodes : List Node → Bool
  | [] => true
  | n :: ns => allRefNode n && allRefNodes ns

end

/-- Modelled from the spec: the Babel parse of
`if (x === true) \x7b y(); \x7d` — an if-statement at line 1 whose test is
the strict-equality comparison `x === true` and whose block holds the call
`y()` (the block-statement and expression-statement wrappers are elided:
no visitor consults them). -/
def astC7 : List Node :=
  [.ifStmt (.binaryExpr "===" (.ident "x" 1) (.boolLit true 1) 1)
    [.callExpr (.ident "y" 1) [] 1] 1]

/-- A referenced declarator plus a `console.log` call: concrete input with
zero unused bindings. -/
def astC8 : List Node :=
  [.varDecl [.varDeclarator "x" true [] 1] 1,
   .callExpr (.memberExpr (.ident "console" 2) (some "log") 2) [] 2]

/-- Six print calls on six lines. -/
def c5SixPrints : String :=
  "print(1)\nprint(2)\nprint(3)\nprint(4)\nprint(5)\nprint(6)"

/-- The referenced-flag of a single node: declarators carry their flag,
every other node is trivially fine. -/
def nodeRefOk : Node → Bool
  | .varDeclarator _ r _ _ => r
  | _ => true

end Analyzer

end WastedLines

namespace WastedLines

namespace SrcIndex

/-- C1: the claim states that removed lines increment the diff-position
counter (GitHub's documented convention) while only non-removed lines
advance the new-file line counter.  The code instead skips removed lines
entirely: on a patch whose hunk deletes one line before the context line
for new-file line 1, the code returns position 1, whereas the convention
the claim describes (embedded as `getDiffPositionSpec`) yields position 2
because the removed line occupies position 1. -/
theorem C1_code_behavior_at_failing_input :
    getDiffPosition (some c1Patch) 1 = some 1 ∧
      getDiffPositionSpec (some c1Patch) 1 = some 2 :=
  ⟨rfl, rfl⟩

/-- C2: on the patch `@@ -1,3 +1,4 @@\n context\n+added1\n+added2\n context`,
requesting source line 2 (the first added line, `newStart + 1`) resolves
to diff position 2: the hunk header counts as 0, the first context line
as 1, the first added line as 2. -/
theorem C2_scenario_position_two :
    getDiffPosition (some "@@ -1,3 +1,4 @@\n context\n+added1\n+added2\n context") 2 =
      some 2 :=
  rfl

/-- Step equation: a header line with a parsable hunk header resets the
line counter and counts nothing. -/
theorem diffLoop_header_some (l : List Char) (ls : List (List Char)) (t : Int) (pos : Nat)
    (cur : Int) (n : Nat) (hh : isHeaderLine l = true) (hs : searchHunk l = some n) :
    diffLoop (l :: ls) t pos cur = diffLoop ls t pos (Int.ofNat n) := by
  simp [diffLoop, hh, hs]

/-- Step equation: a header line whose header pattern does not match
changes neither counter. -/
theorem diffLoop_header_no_match (l : List Char) (ls : List (List Char)) (t : Int) (pos : Nat)
    (cur : Int) (hh : isHeaderLine l = true) (hs : searchHunk l = none) :
    diffLoop (l :: ls) t pos cur = diffLoop ls t pos cur := by
  simp [diffLoop, hh, hs]

/-- Step equation: a removed line is skipped entirely. -/
theorem diffLoop_removed (l : List Char) (ls : List (List Char)) (t : Int) (pos : Nat)
    (cur : Int) (hh : isHeaderLine l = false) (hr : isRemovedLine l = true) :
    diffLoop (l :: ls) t pos cur = diffLoop ls t pos cur := by
  simp [diffLoop, hh, hr]

/-- Step equation: a counting line at the requested line returns the
incremented position. -/
theorem diffLoop_hit (l : List Char) (ls : List (List Char)) (t : Int) (pos : Nat)
    (cur : Int) (hh : isHeaderLine l = false) (hr : isRemovedLine l = false) (hc : cur = t) :
    diffLoop (l :: ls) t pos cur = some (pos + 1) := by
  simp [diffLoop, hh, hr, hc]

/-- Step equation: a counting line at any other line advances both
counters. -/
theorem diffLoop_miss (l : List Char) (ls : List (List Char)) (t : Int) (pos : Nat)
    (cur : Int) (hh : isHeaderLine l = false) (hr : isRemovedLine l = false)
    (hc : ¬ cur = t) :
    diffLoop (l :: ls) t pos cur = diffLoop ls t (pos + 1) (cur + 1) := by
  simp [diffLoop, hh, hr, hc]

/-- Step equation: kept (non-removed) body lines cover the current line
and shift the rest. -/
theorem coveredFrom_kept (l : List Char) (ls : List (List Char)) (cur : Int)
    (hr : isRemovedLine l = false) :
    coveredFrom (l :: ls) cur = cur :: coveredFrom ls (cur + 1) := by
  simp [coveredFrom, hr]

/-- Step equation: removed body lines cover nothing. -/
theorem coveredFrom_removed (l : List Char) (ls : List (List Char)) (cur : Int)
    (hr : isRemovedLine l = true) :
    coveredFrom (l :: ls) cur = coveredFrom ls cur := by
  simp [coveredFrom, hr]

/-- Step equation for the non-removed line count, kept line. -/
theorem countNonRemoved_kept (l : List Char) (ls : List (List Char))
    (hr : isRemovedLine l = false) :
    countNonRemoved (l :: ls) = 1 + countNonRemoved ls := by
  simp [countNonRemoved, hr]

/-- Step equation for the non-removed line count, removed line. -/
theorem countNonRemoved_removed (l : List Char) (ls : List (List Char))
    (hr : isRemovedLine l = true) :
    countNonRemoved (l :: ls) = countNonRemoved ls := by
  simp [countNonRemoved, hr]

/-- Any returned position exceeds the running counter it started from and
is bounded by the number of counting (non-header, non-removed) lines. -/
theorem diffLoop_some_bounds :
    ∀ (lines : List (List Char)) (t : Int) (pos : Nat) (cur : Int) (p : Nat),
      diffLoop lines t pos cur = some p → pos < p ∧ p ≤ pos + countCountingLines lines := by
  intro lines
  induction lines with
  | nil => intro t pos cur p h; simp [diffLoop] at h
  | cons l ls ih =>
    intro t pos cur p h
    cases hh : isHeaderLine l with
    | true =>
      cases hsr : searchHunk l with
      | some n =>
        rw [diffLoop_header_some l ls t pos cur n hh hsr] at h
        have hb := ih t pos (Int.ofNat n) p h
        simp [countCountingLines, hh]
        omega
      | none =>
        rw [diffLoop_header_no_match l ls t pos cur hh hsr] at h
        have hb := ih t pos cur p h
        simp [countCountingLines, hh]
        omega
    | false =>
      cases hr : isRemovedLine l with
      | true =>
        rw [diffLoop_removed l ls t pos cur hh hr] at h
        have hb := ih t pos cur p h
        simp [countCountingLines, hh, hr]
        omega
      | false =>
        by_cases hc : cur = t
        · rw [diffLoop_hit l ls t pos cur hh hr hc] at h
          simp only [Option.some.injEq] at h
          simp [countCountingLines, hh, hr]
          omega
        · rw [diffLoop_miss l ls t pos cur hh hr hc] at h
          have hb := ih t (pos + 1) (cur + 1) p h
          simp [countCountingLines, hh, hr]
          omega

/-- Counting lines are in particular non-header lines. -/
theorem countCountingLines_le_countNonHeaderLines :
    ∀ lines : List (List Char), countCountingLines lines ≤ countNonHeaderLines lines := by
  intro lines
  induction lines with
  | nil => simp [countCountingLines, countNonHeaderLines]
  | cons l ls ih =>
    simp only [countCountingLines, countNonHeaderLines]
    cases hh : isHeaderLine l with
    | true => simp [hh]; omega
    | false =>
      cases hr : isRemovedLine l with
      | true => simp [hh, hr]; omega
      | false => simp [hh, hr]; omega

/-- Every covered new-file line of a body is at least the starting line. -/
theorem mem_coveredFrom_ge :
    ∀ (b : List (List Char)) (cur t : Int), t ∈ coveredFrom b cur → cur ≤ t := by
  intro b
  induction b with
  | nil => intro cur t h; simp [coveredFrom] at h
  | cons l ls ih =>
    intro cur t h
    cases hr : isRemovedLine l with
    | true =>
      rw [coveredFrom_removed l ls cur hr] at h
      exact ih cur t h
    | false =>
      rw [coveredFrom_kept l ls cur hr] at h
      rcases List.mem_cons.mp h with h1 | h2
      . omega
      . have := ih (cur + 1) t h2; omega

/-- A header-free body whose covered lines avoid the target is traversed
without returning, advancing both counters by its non-removed line count. -/
theorem diffLoop_append_not_covered :
    ∀ (b : List (List Char)), (∀ l ∈ b, isHeaderLine l = false) →
      ∀ (rest : List (List Char)) (t : Int) (pos : Nat) (cur : Int),
        t ∉ coveredFrom b cur →
        diffLoop (b ++ rest) t pos cur =
          diffLoop rest t (pos + countNonRemoved b) (cur + countNonRemoved b) := by
  intro b
  induction b with
  | nil => intro _ rest t pos cur _; simp [countNonRemoved]
  | cons l ls ih =>
    intro hb rest t pos cur hnc
    have hlh : isHeaderLine l = false := hb l (List.mem_cons_self l ls)
    have hbs : forall x, x ∈ ls → isHeaderLine x = false :=
      fun x hx => hb x (List.mem_cons_of_mem l hx)
    cases hr : isRemovedLine l with
    | true =>
      have hnc' : t ∉ coveredFrom ls cur := by
        rw [coveredFrom_removed l ls cur hr] at hnc; exact hnc
      rw [List.cons_append, diffLoop_removed l (ls ++ rest) t pos cur hlh hr,
        ih hbs rest t pos cur hnc', countNonRemoved_removed l ls hr]
    | false =>
      rw [coveredFrom_kept l ls cur hr] at hnc
      have hne : ¬ cur = t := fun e => hnc (by rw [e]; exact List.mem_cons_self t _)
      have hnc' : t ∉ coveredFrom ls (cur + 1) := fun hm => hnc (List.mem_cons_of_mem cur hm)
      rw [List.cons_append, diffLoop_miss l (ls ++ rest) t pos cur hlh hr hne,
        ih hbs rest t (pos + 1) (cur + 1) hnc', countNonRemoved_kept l ls hr]
      have e1 : pos + 1 + countNonRemoved ls = pos + (1 + countNonRemoved ls) := by omega
      have e2 : cur + 1 + (countNonRemoved ls : Int) = cur + ((1 + countNonRemoved ls : Nat) : Int) := by
        push_cast; ring
      rw [e1, e2]

/-- A header-free body whose covered lines include the target makes the
loop return a position strictly above the starting counter and within the
body non-removed line count. -/
theorem diffLoop_append_found :
    ∀ (b : List (List Char)), (∀ l ∈ b, isHeaderLine l = false) →
      ∀ (rest : List (List Char)) (t : Int) (pos : Nat) (cur : Int),
        t ∈ coveredFrom b cur →
        ∃ p, diffLoop (b ++ rest) t pos cur = some p ∧
          pos < p ∧ p ≤ pos + countNonRemoved b := by
  intro b
  induction b with
  | nil => intro _ rest t pos cur h; simp [coveredFrom] at h
  | cons l ls ih =>
    intro hb rest t pos cur hc
    have hlh : isHeaderLine l = false := hb l (List.mem_cons_self l ls)
    have hbs : forall x, x ∈ ls → isHeaderLine x = false :=
      fun x hx => hb x (List.mem_cons_of_mem l hx)
    cases hr : isRemovedLine l with
    | true =>
      rw [coveredFrom_removed l ls cur hr] at hc
      obtain ⟨p, hp, h1, h2⟩ := ih hbs rest t pos cur hc
      refine ⟨p, ?_, h1, ?_⟩
      . rw [List.cons_append, diffLoop_removed l (ls ++ rest) t pos cur hlh hr]
        exact hp
      . rw [countNonRemoved_removed l ls hr]
        exact h2
    | false =>
      rw [coveredFrom_kept l ls cur hr] at hc
      by_cases hcur : cur = t
      . refine ⟨pos + 1, ?_, by omega, ?_⟩
        . rw [List.cons_append, diffLoop_hit l (ls ++ rest) t pos cur hlh hr hcur]
        . rw [countNonRemoved_kept l ls hr]
          omega
      . have hmem : t ∈ coveredFrom ls (cur + 1) := by
          rcases List.mem_cons.mp hc with h1 | h2
          . exact absurd h1.symm hcur
          . exact h2
        obtain ⟨p, hp, h1, h2⟩ := ih hbs rest t (pos + 1) (cur + 1) hmem
        refine ⟨p, ?_, by omega, ?_⟩
        . rw [List.cons_append, diffLoop_miss l (ls ++ rest) t pos cur hlh hr hcur]
          exact hp
        . rw [countNonRemoved_kept l ls hr]
          omega

/-- Within one header-free body, a larger covered target yields a strictly
larger position. -/
theorem diffLoop_append_mono :
    ∀ (b : List (List Char)), (∀ l ∈ b, isHeaderLine l = false) →
      ∀ (rest : List (List Char)) (t1 t2 : Int) (pos : Nat) (cur : Int),
        t1 ∈ coveredFrom b cur → t2 ∈ coveredFrom b cur → t1 < t2 →
        ∃ p1 p2, diffLoop (b ++ rest) t1 pos cur = some p1 ∧
          diffLoop (b ++ rest) t2 pos cur = some p2 ∧ p1 < p2 := by
  intro b
  induction b with
  | nil => intro _ rest t1 t2 pos cur h1 _ _; simp [coveredFrom] at h1
  | cons l ls ih =>
    intro hb rest t1 t2 pos cur h1 h2 hlt
    have hlh : isHeaderLine l = false := hb l (List.mem_cons_self l ls)
    have hbs : forall x, x ∈ ls → isHeaderLine x = false :=
      fun x hx => hb x (List.mem_cons_of_mem l hx)
    cases hr : isRemovedLine l with
    | true =>
      rw [coveredFrom_removed l ls cur hr] at h1 h2
      obtain ⟨p1, p2, e1, e2, hp⟩ := ih hbs rest t1 t2 pos cur h1 h2 hlt
      refine ⟨p1, p2, ?_, ?_, hp⟩
      . rw [List.cons_append, diffLoop_removed l (ls ++ rest) t1 pos cur hlh hr]
        exact e1
      . rw [List.cons_append, diffLoop_removed l (ls ++ rest) t2 pos cur hlh hr]
        exact e2
    | false =>
      rw [coveredFrom_kept l ls cur hr] at h1 h2
      by_cases hcur : cur = t1
      . have hne2 : ¬ cur = t2 := by omega
        have hmem2 : t2 ∈ coveredFrom ls (cur + 1) := by
          rcases List.mem_cons.mp h2 with h | h
          . exact absurd h.symm hne2
          . exact h
        obtain ⟨p2, e2, hgt, _⟩ := diffLoop_append_found ls hbs rest t2 (pos + 1) (cur + 1) hmem2
        refine ⟨pos + 1, p2, ?_, ?_, by omega⟩
        . rw [List.cons_append, diffLoop_hit l (ls ++ rest) t1 pos cur hlh hr hcur]
        . rw [List.cons_append, diffLoop_miss l (ls ++ rest) t2 pos cur hlh hr hne2]
          exact e2
      . have hge1 : cur ≤ t1 := by
          have := mem_coveredFrom_ge (l :: ls) cur t1 (by rw [coveredFrom_kept l ls cur hr]; exact h1)
          exact this
        have hne2 : ¬ cur = t2 := by omega
        have hmem1 : t1 ∈ coveredFrom ls (cur + 1) := by
          rcases List.mem_cons.mp h1 with h | h
          . exact absurd h.symm hcur
          . exact h
        have hmem2 : t2 ∈ coveredFrom ls (cur + 1) := by
          rcases List.mem_cons.mp h2 with h | h
          . exact absurd h.symm hne2
          . exact h
        obtain ⟨p1, p2, e1, e2, hp⟩ := ih hbs rest t1 t2 (pos + 1) (cur + 1) hmem1 hmem2 hlt
        refine ⟨p1, p2, ?_, ?_, hp⟩
        . rw [List.cons_append, diffLoop_miss l (ls ++ rest) t1 pos cur hlh hr hcur]
          exact e1
        . rw [List.cons_append, diffLoop_miss l (ls ++ rest) t2 pos cur hlh hr hne2]
          exact e2
theorem flattenHunks_append :
    ∀ (a b : List HunkT), flattenHunks (a ++ b) = flattenHunks a ++ flattenHunks b := by
  intro a b
  induction a with
  | nil => simp [flattenHunks]
  | cons hb hs ih => simp [flattenHunks, ih]

/-- Skipping a well-formed patch whose covered lines avoid both targets
leaves the loop at the same counters for either target. -/
theorem diffLoop_skip_hunks2 :
    ∀ (hs : List HunkT), (∀ hb ∈ hs, HunkWF hb) →
      ∀ (rest : List (List Char)) (t1 t2 : Int) (pos : Nat) (cur : Int),
        t1 ∉ patchCovered hs → t2 ∉ patchCovered hs →
        ∃ pos' cur',
          diffLoop (flattenHunks hs ++ rest) t1 pos cur = diffLoop rest t1 pos' cur' ∧
          diffLoop (flattenHunks hs ++ rest) t2 pos cur = diffLoop rest t2 pos' cur' := by
  intro hs
  induction hs with
  | nil => intro _ rest t1 t2 pos cur _ _; exact ⟨pos, cur, by simp [flattenHunks], by simp [flattenHunks]⟩
  | cons hb hs ih =>
    intro hwf rest t1 t2 pos cur hn1 hn2
    obtain ⟨hh, hsome, hbody⟩ := hwf hb (List.mem_cons_self hb hs)
    obtain ⟨s, hse⟩ := Option.isSome_iff_exists.mp hsome
    have hwf' : ∀ x ∈ hs, HunkWF x := fun x hx => hwf x (List.mem_cons_of_mem hb hx)
    have hc1 : t1 ∉ coveredFrom hb.2 (Int.ofNat s) := by
      intro hm
      exact hn1 (by simp only [patchCovered, List.mem_append]; left
                    simp only [hunkCovered, hse]; exact hm)
    have hc2 : t2 ∉ coveredFrom hb.2 (Int.ofNat s) := by
      intro hm
      exact hn2 (by simp only [patchCovered, List.mem_append]; left
                    simp only [hunkCovered, hse]; exact hm)
    have hr1 : t1 ∉ patchCovered hs := fun hm =>
      hn1 (by simp only [patchCovered, List.mem_append]; right; exact hm)
    have hr2 : t2 ∉ patchCovered hs := fun hm =>
      hn2 (by simp only [patchCovered, List.mem_append]; right; exact hm)
    obtain ⟨pos', cur', e1, e2⟩ :=
      ih hwf' rest t1 t2 (pos + countNonRemoved hb.2)
        (Int.ofNat s + countNonRemoved hb.2) hr1 hr2
    refine ⟨pos', cur', ?_, ?_⟩
    · rw [flattenHunks, List.cons_append]
      simp only [diffLoop, hh, hse, if_true]
      rw [List.append_assoc]
      rw [diffLoop_append_not_covered hb.2 hbody _ t1 pos (Int.ofNat s) hc1]
      exact e1
    · rw [flattenHunks, List.cons_append]
      simp only [diffLoop, hh, hse, if_true]
      rw [List.append_assoc]
      rw [diffLoop_append_not_covered hb.2 hbody _ t2 pos (Int.ofNat s) hc2]
      exact e2

/-- On a well-formed patch whose covered lines avoid the target, the loop
returns the null sentinel. -/
theorem diffLoop_hunks_none :
    ∀ (hs : List HunkT), (∀ hb ∈ hs, HunkWF hb) →
      ∀ (t : Int) (pos : Nat) (cur : Int), t ∉ patchCovered hs →
        diffLoop (flattenHunks hs) t pos cur = none := by
  intro hs hwf t pos cur hn
  obtain ⟨pos', cur', e, _⟩ := diffLoop_skip_hunks2 hs hwf [] t t pos cur hn hn
  rw [List.append_nil] at e
  rw [e]
  simp [diffLoop]

/-- Membership in the covered lines of a patch comes from one of its hunks. -/
theorem mem_patchCovered :
    ∀ (hs : List HunkT) (t : Int), t ∈ patchCovered hs →
      ∃ hb ∈ hs, ∃ n, searchHunk hb.1 = some n ∧ t ∈ coveredFrom hb.2 (Int.ofNat n) := by
  intro hs
  induction hs with
  | nil => intro t h; simp [patchCovered] at h
  | cons hb hs ih =>
    intro t h
    rcases List.mem_append.mp h with h1 | h2
    · cases hse : searchHunk hb.1 with
      | some n =>
        refine ⟨hb, List.mem_cons_self hb hs, n, hse, ?_⟩
        simpa [hunkCovered, hse] using h1
      | none => simp [hunkCovered, hse] at h1
    · obtain ⟨x, hx, n, hn, hm⟩ := ih t h2
      exact ⟨x, List.mem_cons_of_mem hb hx, n, hn, hm⟩

/-- C3 counterexample: the claim states that `getDiffPosition` returns the
null sentinel whenever the requested source line is smaller than the first
hunk's new-side start, for every input.  On a patch whose second hunk
header rewinds the line counter below the first hunk's start (first hunk
starts at new-file line 10), requesting line 1 — smaller than 10 —
nevertheless resolves to position 2 instead of the sentinel. -/
theorem C3_counterexample :
    getDiffPosition (some c3Patch) 1 = some 2 ∧
      searchHunk "@@ -10,1 +10,1 @@".data = some 10 ∧ (1 : Int) < 10 :=
  ⟨rfl, rfl, by norm_num⟩

/-- C3 (amended): `getDiffPosition` returns the null sentinel when the
patch is absent or empty; and on a patch made of well-formed hunks it
returns the sentinel whenever the requested source line is not the
new-file line number of any added or context line — in particular, when
every hunk's parsed new-start is at least `s0` and the requested line is
below `s0` (with `s0` the first hunk's start, this is the before-the-first-
hunk case; the unrestricted claim fails, see the counterexample, because a
later hunk header may rewind the line counter). -/
theorem C3_unresolvable_amended :
    (∀ t : Int, getDiffPosition none t = none) ∧
    (∀ t : Int, getDiffPosition (some "") t = none) ∧
    (∀ (p : String) (hs : List HunkT) (t : Int),
        splitOnNl p.data = flattenHunks hs →
        (∀ hb ∈ hs, HunkWF hb) →
        t ∉ patchCovered hs →
        getDiffPosition (some p) t = none) ∧
    (∀ (p : String) (hs : List HunkT) (s0 t : Int),
        splitOnNl p.data = flattenHunks hs →
        (∀ hb ∈ hs, HunkWF hb) →
        (∀ hb ∈ hs, ∀ n : Nat, searchHunk hb.1 = some n → s0 ≤ (n : Int)) →
        t < s0 →
        getDiffPosition (some p) t = none) := by
  have main : ∀ (p : String) (hs : List HunkT) (t : Int),
      splitOnNl p.data = flattenHunks hs →
      (∀ hb ∈ hs, HunkWF hb) →
      t ∉ patchCovered hs →
      getDiffPosition (some p) t = none := by
    intro p hs t hsplit hwf hnc
    by_cases hp : p.data = []
    · simp [getDiffPosition, hp]
    · simp only [getDiffPosition, hp, if_false]
      rw [hsplit]
      exact diffLoop_hunks_none hs hwf t 0 0 hnc
  refine ⟨fun t => rfl, fun t => rfl, main, ?_⟩
  intro p hs s0 t hsplit hwf hstarts hlt
  apply main p hs t hsplit hwf
  intro hmem
  obtain ⟨hb, hhb, n, hn, hcov⟩ := mem_patchCovered hs t hmem
  have h1 : (n : Int) ≤ t := mem_coveredFrom_ge hb.2 (Int.ofNat n) t hcov
  have h2 : s0 ≤ (n : Int) := hstarts hb hhb n hn
  omega

/-- C3 witness: a concrete single-hunk patch covering only new-file line 1;
requesting line 5 is unresolvable. -/
theorem C3_witness : getDiffPosition (some c3WFPatch) 5 = none :=
  C3_unresolvable_amended.2.2.1 c3WFPatch c3WFHunks 5 (by decide) (by decide) (by decide)

/-- C4: the diff-position counter is patch-global (never reset at hunk
headers) and is never returned for a removed line; consequently, on a
patch splitting into well-formed hunks, any two added/context new-file
lines `t1 < t2` of the same hunk (neither covered by an earlier hunk)
resolve to positions `p1 < p2` with `1 ≤ p1` and `p2` at most the number
of non-header lines of the patch. -/
theorem C4_position_bounds_mono :
    ∀ (p : String) (pre post : List HunkT) (hd : List Char) (b : List (List Char)) (s : Nat)
      (t1 t2 : Int),
      splitOnNl p.data = flattenHunks (pre ++ (hd, b) :: post) →
      p.data ≠ [] →
      (∀ hb ∈ pre, HunkWF hb) →
      isHeaderLine hd = true →
      searchHunk hd = some s →
      (∀ l ∈ b, isHeaderLine l = false) →
      t1 ∉ patchCovered pre →
      t2 ∉ patchCovered pre →
      t1 ∈ coveredFrom b (Int.ofNat s) →
      t2 ∈ coveredFrom b (Int.ofNat s) →
      t1 < t2 →
      ∃ p1 p2,
        getDiffPosition (some p) t1 = some p1 ∧
        getDiffPosition (some p) t2 = some p2 ∧
        1 ≤ p1 ∧ p1 < p2 ∧ p2 ≤ countNonHeaderLines (splitOnNl p.data) := by
  intro p pre post hd b s t1 t2 hsplit hp hpre hhd hse hbody h1pre h2pre h1 h2 hlt
  have hflat : splitOnNl p.data = flattenHunks pre ++ (hd :: (b ++ flattenHunks post)) := by
    rw [hsplit, flattenHunks_append]
    rfl
  obtain ⟨pos', cur', e1, e2⟩ :=
    diffLoop_skip_hunks2 pre hpre (hd :: (b ++ flattenHunks post)) t1 t2 0 0 h1pre h2pre
  have s1 : diffLoop (hd :: (b ++ flattenHunks post)) t1 pos' cur' =
      diffLoop (b ++ flattenHunks post) t1 pos' (Int.ofNat s) :=
    diffLoop_header_some hd _ t1 pos' cur' s hhd hse
  have s2 : diffLoop (hd :: (b ++ flattenHunks post)) t2 pos' cur' =
      diffLoop (b ++ flattenHunks post) t2 pos' (Int.ofNat s) :=
    diffLoop_header_some hd _ t2 pos' cur' s hhd hse
  obtain ⟨p1, p2, f1, f2, hp12⟩ :=
    diffLoop_append_mono b hbody (flattenHunks post) t1 t2 pos' (Int.ofNat s) h1 h2 hlt
  have g1 : diffLoop (splitOnNl p.data) t1 0 0 = some p1 := by
    rw [hflat, e1, s1, f1]
  have g2 : diffLoop (splitOnNl p.data) t2 0 0 = some p2 := by
    rw [hflat, e2, s2, f2]
  have b1 := diffLoop_some_bounds (splitOnNl p.data) t1 0 0 p1 g1
  have b2 := diffLoop_some_bounds (splitOnNl p.data) t2 0 0 p2 g2
  have hcc := countCountingLines_le_countNonHeaderLines (splitOnNl p.data)
  refine ⟨p1, p2, ?_, ?_, by omega, hp12, by omega⟩
  · simp only [getDiffPosition, hp, if_false]
    exact g1
  · simp only [getDiffPosition, hp, if_false]
    exact g2

/-- C4 witness: on the patch `@@ -1,3 +1,3 @@\n a\n-b\n+c\n d`, new-file
lines 1 and 2 resolve to positions satisfying the claimed bounds and
strict monotonicity. -/
theorem C4_witness :
    ∃ p1 p2,
      getDiffPosition (some c4Patch) 1 = some p1 ∧
      getDiffPosition (some c4Patch) 2 = some p2 ∧
      1 ≤ p1 ∧ p1 < p2 ∧ p2 ≤ countNonHeaderLines (splitOnNl c4Patch.data) :=
  C4_position_bounds_mono c4Patch [] [] c4Hd c4Body 1 1 2 (by decide) (by decide)
    (by decide) (by decide) (by decide) (by decide) (by decide) (by decide)
    (by decide) (by decide) (by decide)

/-- C10: a line that starts with `@@` but in which the two-count hunk
header pattern finds no match (such as `@@ -3 +3 @@`, where unified diff
omits a count of 1) leaves both the new-file line counter and the
diff-position counter unchanged, and scanning continues with the next
line. -/
theorem C10_malformed_header_skipped :
    ∀ (l : List Char) (ls : List (List Char)) (t : Int) (pos : Nat) (cur : Int),
      isHeaderLine l = true → searchHunk l = none →
      diffLoop (l :: ls) t pos cur = diffLoop ls t pos cur :=
  fun l ls t pos cur hh hm => diffLoop_header_no_match l ls t pos cur hh hm

/-- C10 witness: the one-count header `@@ -3 +3 @@` is skipped without
touching either counter. -/
theorem C10_witness :
    diffLoop ["@@ -3 +3 @@".data, " x".data] 1 0 0 = diffLoop [" x".data] 1 0 0 :=
  C10_malformed_header_skipped "@@ -3 +3 @@".data [" x".data] 1 0 0 (by decide) (by decide)

end SrcIndex

/-- String append acts as list append on the underlying character data. -/
theorem string_data_append (s t : String) : (s ++ t).data = s.data ++ t.data := rfl

/-- Strings differing at character index 2 differ. -/
theorem string_ne_of_idx2 (a b : String) (h : ¬ (a.data)[2]? = (b.data)[2]?) : a ≠ b :=
  fun e => h (by rw [e])

namespace Detector

/-- The later-boundary search succeeds exactly when some later-boundary
occurrence is counted. -/
theorem ifElseOccurrencesAux_pos :
    ∀ s : List Char, 1 ≤ ifElseOccurrencesAux s ↔ searchBoundaryAux matchIfElseAt s = true := by
  intro s
  induction s with
  | nil => simp [ifElseOccurrencesAux, searchBoundaryAux]
  | cons c cs ih =>
    simp only [ifElseOccurrencesAux, searchBoundaryAux]
    by_cases hb : (!isWordCh c && matchIfElseAt cs) = true
    · simp [hb]
    · simp [hb, ih]

/-- The if-else test fires exactly when at least one occurrence exists. -/
theorem testIfElse_iff_occurrences :
    ∀ s : List Char, testIfElse s = true ↔ 1 ≤ ifElseOccurrences s := by
  intro s
  simp only [testIfElse, searchBoundary, ifElseOccurrences]
  by_cases hm : matchIfElseAt s = true
  · simp [hm]
  · simp [hm]
    exact (ifElseOccurrencesAux_pos s).symm

/-- C6 counterexample: the claim demands one finding per occurrence, but
on a content holding two disjoint single-statement if/else blocks the
detector still reports the unnecessary-if-else finding exactly once, not
twice. -/
theorem C6_counterexample :
    ifElseOccurrences c6Content.data = 2 ∧
      (analyzeCode c6Content "a.js").count ifElseMsg = 1 :=
  ⟨by decide, by decide⟩

/-- C6 (amended): the detector's if-else rule is a whole-content test: it
reports the unnecessary-if-else finding exactly once whenever the content
has at least one occurrence of an if/else block with single-statement
bodies, and never otherwise — independently of the number of
occurrences. -/
theorem C6_if_else_once_per_file (content : String) (filename : String) :
    (analyzeCode content filename).count ifElseMsg =
      if 1 ≤ ifElseOccurrences content.data then 1 else 0 := by
  have hne1 : (dupVarMsg == ifElseMsg) = false := by decide
  have hne2 : (longLoopMsg == ifElseMsg) = false := by decide
  have hself : (ifElseMsg == ifElseMsg) = true := by decide
  simp only [analyzeCode]
  by_cases h1 : testIfElse content.data = true
  · rw [if_pos ((testIfElse_iff_occurrences content.data).mp h1), if_pos h1]
    by_cases h2 : testDupVar content.data = true <;>
      by_cases h3 : testLongLoop content.data = true <;>
        simp [h2, h3, List.count_append, List.count_cons, List.count_nil, hne1, hne2, hself]
  · have h0 : ¬ 1 ≤ ifElseOccurrences content.data := fun hc =>
      h1 ((testIfElse_iff_occurrences content.data).mpr hc)
    rw [if_neg h0, if_neg h1]
    by_cases h2 : testDupVar content.data = true <;>
      by_cases h3 : testLongLoop content.data = true <;>
        simp [h2, h3, List.count_append, List.count_cons, List.count_nil, hne1, hne2]

end Detector

namespace Analyzer

/-- Per-line print findings of a Python file: the print-message findings
of `forEachLine` are exactly the lines on which the print pattern tests
true. -/
theorem forEachLine_print_count (filename : String)
    (hpy : strEndsWith filename.data ".py".data = true) :
    ∀ (lines : List (List Char)) (n : Nat),
      ((forEachLine filename lines n).filter (fun s => s.message == pyPrintMsg)).length =
        (lines.filter testPrint).length := by
  have hb : (pyBoolMsg == pyPrintMsg) = false := by decide
  have hp : (pyPrintMsg == pyPrintMsg) = true := by decide
  intro lines
  induction lines with
  | nil => intro n; simp [forEachLine]
  | cons l ls ih =>
    intro n
    rw [forEachLine, List.filter_append, List.length_append, ih (n + 1),
      nonJsLineChecks, if_pos hpy]
    by_cases h1 : testPrint l = true <;>
      by_cases h2 : testPyBool l = true <;>
        simp [h1, h2, List.filter_cons, hb, hp, Nat.add_comm]

/-- C5 counterexample: the claim says a Python file whose content holds
exactly one `print(...)` call yields no too-many-print finding; the
analyzer instead emits the finding for this single call. -/
theorem C5_counterexample :
    analyzeNonJsCode "print(1)" "a.py" = [⟨pyPrintMsg, 1⟩] := by
  decide

/-- C5 (amended): the print rule of `analyzeNonJsCode` has no threshold —
it emits one too-many-print finding per line matching `print\(.*\)`.  A
Python file with six print calls on six lines therefore yields six such
findings (at least one), but a file with exactly one print call yields
one finding as well, not none. -/
theorem C5_print_findings_count (content : String) (filename : String)
    (hpy : strEndsWith filename.data ".py".data = true) :
    ((analyzeNonJsCode content filename).filter (fun s => s.message == pyPrintMsg)).length =
      ((splitOnNl content.data).filter testPrint).length :=
  forEachLine_print_count filename hpy (splitOnNl content.data) 1

/-- C5 witness: six print calls on six lines of a Python file give six
too-many-print findings. -/
theorem C5_witness :
    ((splitOnNl c5SixPrints.data).filter testPrint).length = 6 ∧
      ((analyzeNonJsCode c5SixPrints "a.py").filter
          (fun s => s.message == pyPrintMsg)).length =
        ((splitOnNl c5SixPrints.data).filter testPrint).length :=
  ⟨by decide, C5_print_findings_count c5SixPrints "a.py" (by decide)⟩

/-- C7: the content `if (x === true) \x7b y(); \x7d` (braces written by
code point) parses to `astC7`; the syntax analyzer yields exactly one
finding, the simplifiable-boolean-comparison message naming `x`, anchored
at source line 1. -/
theorem C7_boolean_comparison_line1 :
    analyzeCode "if (x === true) \x7b y(); \x7d" "file.js"
        (fun _ => Except.ok astC7) =
      [⟨simplifiableMsg (some "x"), 1⟩] := by
  decide

/-- Character 2 of the unused-variable message is `U` for every name. -/
theorem unusedMsg_idx2 (nm : String) : ((unusedMsg nm).data)[2]? = some 'U' := by
  have hlen : 2 < ("🔍 Unused variable detected: `").data.length := by decide
  show ((("🔍 Unused variable detected: `" ++ nm) ++ "`").data)[2]? = some 'U'
  rw [string_data_append, string_data_append,
    List.getElem?_append_left (by rw [List.length_append]; omega),
    List.getElem?_append_left hlen]
  decide

/-- Character 2 of the simplifiable-comparison message is `B` for every
interpolated name. -/
theorem simplifiableMsg_idx2 (x : Option String) :
    ((simplifiableMsg x).data)[2]? = some 'B' := by
  have hlen : 2 < ("🔍 Boolean comparison can be simplified: `if (").data.length := by decide
  show ((("🔍 Boolean comparison can be simplified: `if (" ++ x.getD "undefined") ++ ")`").data)[2]? =
    some 'B'
  rw [string_data_append, string_data_append,
    List.getElem?_append_left (by rw [List.length_append]; omega),
    List.getElem?_append_left hlen]
  decide

/-- The simplifiable-comparison message is never an unused-variable
message. -/
theorem simplifiableMsg_ne_unusedMsg (x : Option String) (nm : String) :
    simplifiableMsg x ≠ unusedMsg nm := by
  apply string_ne_of_idx2
  rw [simplifiableMsg_idx2, unusedMsg_idx2]
  decide

/-- The redundant-literal message is never an unused-variable message. -/
theorem redundantBoolMsg_ne_unusedMsg (nm : String) :
    redundantBoolMsg ≠ unusedMsg nm := by
  apply string_ne_of_idx2
  rw [unusedMsg_idx2]
  decide

/-- The counting-loop message is never an unused-variable message. -/
theorem forLoopMsg_ne_unusedMsg (nm : String) : forLoopMsg ≠ unusedMsg nm := by
  apply string_ne_of_idx2
  rw [unusedMsg_idx2]
  decide

/-- The console-log message is never an unused-variable message. -/
theorem consoleLogMsg_ne_unusedMsg (nm : String) : consoleLogMsg ≠ unusedMsg nm := by
  apply string_ne_of_idx2
  rw [unusedMsg_idx2]
  decide

/-- The if-statement check never emits an unused-variable message. -/
theorem checkIfStatement_no_unused (n : Node) :
    ∀ s ∈ checkIfStatement n, ∀ nm : String, s.message ≠ unusedMsg nm := by
  intro s hs nm
  cases n
  case ifStmt test body line =>
    cases test
    case binaryExpr op left right line2 =>
      simp only [checkIfStatement] at hs
      by_cases hop : op = "==="
      · rw [if_pos hop] at hs
        rw [List.mem_singleton.mp hs]
        exact simplifiableMsg_ne_unusedMsg (nodeName left) nm
      · rw [if_neg hop] at hs
        simp at hs
    case boolLit v line2 =>
      simp only [checkIfStatement] at hs
      by_cases hv : v = true ∨ v = false
      · rw [if_pos hv] at hs
        rw [List.mem_singleton.mp hs]
        exact redundantBoolMsg_ne_unusedMsg nm
      · rw [if_neg hv] at hs
        simp at hs
    all_goals simp [checkIfStatement] at hs
  all_goals simp [checkIfStatement] at hs

/-- The for-statement check never emits an unused-variable message. -/
theorem checkForStatement_no_unused (n : Node) :
    ∀ s ∈ checkForStatement n, ∀ nm : String, s.message ≠ unusedMsg nm := by
  intro s hs nm
  cases n
  case forStmt init body line =>
    cases init
    case nil => simp [checkForStatement] at hs
    case cons h0 rest =>
      cases h0
      case varDecl ds line2 =>
        cases ds
        case nil => simp [checkForStatement] at hs
        case cons d ds2 =>
          cases d
          case varDeclarator nm2 r ie line3 =>
            simp only [checkForStatement] at hs
            by_cases hn : nm2 = "i"
            · rw [if_pos hn] at hs
              rw [List.mem_singleton.mp hs]
              exact forLoopMsg_ne_unusedMsg nm
            · rw [if_neg hn] at hs
              simp at hs
          all_goals simp [checkForStatement] at hs
      all_goals simp [checkForStatement] at hs
  all_goals simp [checkForStatement] at hs

/-- The declarator check emits nothing on a referenced declarator. -/
theorem checkVariableDeclarator_no_unused (n : Node) (h : nodeRefOk n = true) :
    ∀ s ∈ checkVariableDeclarator n, ∀ nm : String, s.message ≠ unusedMsg nm := by
  intro s hs nm
  cases n
  case varDeclarator name r ie line =>
    have hr : r = true := h
    subst hr
    simp [checkVariableDeclarator] at hs
  all_goals simp [checkVariableDeclarator] at hs

/-- The call check never emits an unused-variable message. -/
theorem checkCallExpression_no_unused (n : Node) :
    ∀ s ∈ checkCallExpression n, ∀ nm : String, s.message ≠ unusedMsg nm := by
  intro s hs nm
  cases n
  case callExpr callee args line =>
    cases callee
    case memberExpr obj propName line2 =>
      simp only [checkCallExpression] at hs
      by_cases hp : propName = some "log"
      · rw [if_pos hp] at hs
        rw [List.mem_singleton.mp hs]
        exact consoleLogMsg_ne_unusedMsg nm
      · rw [if_neg hp] at hs
        simp at hs
    all_goals simp [checkCallExpression] at hs
  all_goals simp [checkCallExpression] at hs

/-- The whole visitor table never emits an unused-variable message on a
node whose referenced-flag holds. -/
theorem nodeChecks_no_unused (n : Node) (h : nodeRefOk n = true) :
    ∀ s ∈ nodeChecks n, ∀ nm : String, s.message ≠ unusedMsg nm := by
  intro s hs nm
  simp only [nodeChecks] at hs
  rcases List.mem_append.mp hs with h3 | h4
  · rcases List.mem_append.mp h3 with h2 | hVar
    · rcases List.mem_append.mp h2 with hIf | hFor
      · exact checkIfStatement_no_unused n s hIf nm
      · exact checkForStatement_no_unused n s hFor nm
    · exact checkVariableDeclarator_no_unused n h s hVar nm
  · exact checkCallExpression_no_unused n s h4 nm

mutual

/-- No unused-variable finding is emitted anywhere in a tree whose
declarators are all referenced. -/
theorem visitNode_no_unused (n : Node) (h : allRefNode n = true) :
    ∀ s ∈ visitNode n, ∀ nm : String, s.message ≠ unusedMsg nm := by
  cases n with
  | ifStmt test body line =>
    intro s hs nm
    simp only [visitNode] at hs
    simp only [allRefNode, Bool.and_eq_true] at h
    rcases List.mem_append.mp hs with h1 | hBody
    · rcases List.mem_append.mp h1 with hChecks | hTest
      · exact nodeChecks_no_unused (Node.ifStmt test body line) rfl s hChecks nm
      · exact visitNode_no_unused test h.1 s hTest nm
    · exact visitNodes_no_unused body h.2 s hBody nm
  | forStmt init body line =>
    intro s hs nm
    simp only [visitNode] at hs
    simp only [allRefNode, Bool.and_eq_true] at h
    rcases List.mem_append.mp hs with h1 | hBody
    · rcases List.mem_append.mp h1 with hChecks | hInit
      · exact nodeChecks_no_unused (Node.forStmt init body line) rfl s hChecks nm
      · exact visitNodes_no_unused init h.1 s hInit nm
    · exact visitNodes_no_unused body h.2 s hBody nm
  | varDecl ds line =>
    intro s hs nm
    simp only [visitNode] at hs
    simp only [allRefNode] at h
    rcases List.mem_append.mp hs with hChecks | hDs
    · exact nodeChecks_no_unused (Node.varDecl ds line) rfl s hChecks nm
    · exact visitNodes_no_unused ds h s hDs nm
  | varDeclarator name r ie line =>
    intro s hs nm
    simp only [visitNode] at hs
    simp only [allRefNode, Bool.and_eq_true] at h
    rcases List.mem_append.mp hs with hChecks | hIe
    · exact nodeChecks_no_unused (Node.varDeclarator name r ie line) h.1 s hChecks nm
    · exact visitNodes_no_unused ie h.2 s hIe nm
  | callExpr callee args line =>
    intro s hs nm
    simp only [visitNode] at hs
    simp only [allRefNode, Bool.and_eq_true] at h
    rcases List.mem_append.mp hs with h1 | hArgs
    · rcases List.mem_append.mp h1 with hChecks | hCallee
      · exact nodeChecks_no_unused (Node.callExpr callee args line) rfl s hChecks nm
      · exact visitNode_no_unused callee h.1 s hCallee nm
    · exact visitNodes_no_unused args h.2 s hArgs nm
  | memberExpr obj propName line =>
    intro s hs nm
    simp only [visitNode] at hs
    simp only [allRefNode] at h
    rcases List.mem_append.mp hs with hChecks | hObj
    · exact nodeChecks_no_unused (Node.memberExpr obj propName line) rfl s hChecks nm
    · exact visitNode_no_unused obj h s hObj nm
  | binaryExpr op left right line =>
    intro s hs nm
    simp only [visitNode] at hs
    simp only [allRefNode, Bool.and_eq_true] at h
    rcases List.mem_append.mp hs with h1 | hRight
    · rcases List.mem_append.mp h1 with hChecks | hLeft
      · exact nodeChecks_no_unused (Node.binaryExpr op left right line) rfl s hChecks nm
      · exact visitNode_no_unused left h.1 s hLeft nm
    · exact visitNode_no_unused right h.2 s hRight nm
  | boolLit v line =>
    intro s hs nm
    simp only [visitNode] at hs
    exact nodeChecks_no_unused (Node.boolLit v line) rfl s hs nm
  | ident name line =>
    intro s hs nm
    simp only [visitNode] at hs
    exact nodeChecks_no_unused (Node.ident name line) rfl s hs nm

/-- No unused-variable finding is emitted by the traversal of a node list
whose declarators are all referenced. -/
theorem visitNodes_no_unused (ns : List Node) (h : allRefNodes ns = true) :
    ∀ s ∈ visitNodes ns, ∀ nm : String, s.message ≠ unusedMsg nm := by
  cases ns with
  | nil =>
    intro s hs nm
    simp [visitNodes] at hs
  | cons n ns2 =>
    intro s hs nm
    simp only [visitNodes] at hs
    simp only [allRefNodes, Bool.and_eq_true] at h
    rcases List.mem_append.mp hs with h1 | h2
    · exact visitNode_no_unused n h.1 s h1 nm
    · exact visitNodes_no_unused ns2 h.2 s h2 nm

end

/-- C8: on a syntactically valid JavaScript file whose parse succeeds and
in which every declared binding is referenced in its scope, the analyzer
never emits an unused-variable finding. -/
theorem C8_no_false_positive_unused (content filename : String) (ast : List Node)
    (parseJs : String → Except String (List Node))
    (hjs : strEndsWith filename.data ".js".data = true)
    (hparse : parseJs content = Except.ok ast)
    (href : allRefNodes ast = true) :
    ∀ s ∈ analyzeCode content filename parseJs, ∀ nm : String, s.message ≠ unusedMsg nm := by
  intro s hs nm
  simp only [analyzeCode] at hs
  rw [if_pos hjs, hparse] at hs
  exact visitNodes_no_unused ast href s hs nm

/-- C8 witness: on the fully referenced tree `astC8` the console-log
finding the analyzer does emit is not an unused-variable finding. -/
theorem C8_witness :
    allRefNodes astC8 = true ∧ consoleLogMsg ≠ unusedMsg "x" :=
  ⟨by decide,
    C8_no_false_positive_unused "let x = 1; console.log(x);" "a.js" astC8
      (fun _ => Except.ok astC8) (by decide) rfl (by decide)
      ⟨consoleLogMsg, 2⟩ (by decide) "x"⟩

/-- C9: when the parse of a JavaScript file fails, the thrown parse error
is caught and the analyzer returns the empty finding list for that file
instead of propagating the exception. -/
theorem C9_parse_error_empty (content : String) (filename : String)
    (parseJs : String → Except String (List Node)) (e : String)
    (hjs : strEndsWith filename.data ".js".data = true)
    (herr : parseJs content = Except.error e) :
    analyzeCode content filename parseJs = [] := by
  simp only [analyzeCode]
  rw [if_pos hjs, herr]

/-- C9 witness: a malformed JavaScript file whose parse throws yields no
findings. -/
theorem C9_witness :
    analyzeCode "if (" "a.js" (fun _ => Except.error "SyntaxError") = [] :=
  C9_parse_error_empty "if (" "a.js" (fun _ => Except.error "SyntaxError") "SyntaxError"
    (by decide) rfl

end Analyzer

end WastedLines
